import Mathlib

/-!
Verification of the FAISS-based retriever
(`lightrag/components/retriever/faiss_retriever.py`).

The Python source is shallowly embedded below.  Conventions:

* `float` values are modelled as exact rationals (`ℚ`); the claims under
  study concern ordering, bounds and positional bookkeeping, none of which
  depend on binary floating-point rounding.
* Raised Python exceptions are modelled by the `Err` type; fallible
  operations return `Except Err _`, and `build_index_from_documents`, which
  mutates state even on failure, returns the new state paired with
  `Option Err`.
* The FAISS index and the numpy conversions are external collaborators
  (spec §1 declares them out of scope, §6 gives their contracts): they are
  modelled from the spec as an exact inner-product top-k search with `-1`
  sentinel padding, and list-to-matrix conversion that rejects ragged input.
* The embedding provider is a parameter of the retriever state, returning
  one vector per input string or an error (spec §6).
-/

/-- The distinguishable failure modes of the retriever.  Constructors are
named after the Python exception that the corresponding code path raises
(`indexError` = `IndexError` from a subscript, `attributeError` =
`AttributeError`, the two `dimensionMismatch…` constructors are the two
`assert` statements in `build_index_from_documents`, `assertNotIndexed` is
the `assert self.indexed` in `__call__`, `valueErrorEmptyIndex` is the
`ValueError("Index is empty…")` check, `unboundLocalXq` is the
`UnboundLocalError` for the variable `xq`, `keyError` a `dict` lookup
failure).  `emptyCorpus` is the spec's `EmptyCorpusError` kind; no code
path of the source produces it. -/
inductive Err where
  | indexError
  | attributeError
  | dimensionMismatchCorpus
  | dimensionMismatchConfigured
  | emptyCorpus
  | valueErrorEmptyIndex
  | assertNotIndexed
  | keyError
  | unboundLocalXq
  | faissShapeError
  | faissDimMismatch
  | valueErrorRagged
  | embeddingFailed
deriving DecidableEq

/-- Modelled from the spec: `RetrieverOutput` lives in `lightrag.core.types`,
outside the given source.  Spec §3 "Result": an ordered sequence of retrieved
document indices, a parallel sequence of scores (both empty when the query
was filtered out), plus optionally the original query for traceability. -/
structure RetrieverOutput where
  doc_indices : List Int
  doc_scores : List ℚ
  query : Option String
deriving DecidableEq

/-- Modelled from the spec (§3 "Index Handle", §6 "Similarity Index"):
the opaque FAISS `IndexFlatIP` handle, holding its dimension and the
vectors added so far (`ntotal = vectors.length`). -/
structure IndexFlatIP where
  d : Nat
  vectors : List (List ℚ)
deriving DecidableEq

/-- State of a `FAISSRetriever` object: configuration (`embedder`, `top_k`,
`dimensions`) plus the mutable index lifecycle fields (`index`, `indexed`,
`total_chunks`).  The embedder is the external provider already composed
with the `data.embedding` projection done in `retrieve_string_queries`. -/
structure FAISSRetriever where
  embedder : List String → Except Err (List (List ℚ))
  top_k : Nat
  dimensions : Option Nat
  index : Option IndexFlatIP
  indexed : Bool
  total_chunks : Nat

/-- `__init__` without the optional `documents` argument: `self.index = None`;
the not-yet-built readiness flag and zero chunk count come from the base
`Retriever` class (outside the given source, modelled from the spec:
"Lifecycle: absent (uninitialized)"). -/
def initRetriever (embedder : List String → Except Err (List (List ℚ)))
    (top_k : Nat) (dimensions : Option Nat) : FAISSRetriever :=
  ⟨embedder, top_k, dimensions, none, false, 0⟩

/-- `faiss.Index.reset`: removes all vectors, keeps the dimension. -/
def IndexFlatIP.reset (idx : IndexFlatIP) : IndexFlatIP :=
  { idx with vectors := [] }

/-- `reset_index`: `self.index.reset() if self.index else None;
self.total_chunks = 0; self.indexed = False`. -/
def reset_index (r : FAISSRetriever) : FAISSRetriever :=
  { r with index := r.index.map IndexFlatIP.reset
         , total_chunks := 0
         , indexed := false }

/-- The shapes the `documents` argument of `build_index_from_documents`
can take: a plain list of lists, a 2-D numpy array, or a list whose first
element is a numpy array. -/
inductive DocumentsInput where
  | listOfLists (m : List (List ℚ))
  | ndarrayDocs (m : List (List ℚ))
  | listOfNdarrays (m : List (List ℚ))
deriving DecidableEq

/-- `len(documents)`. -/
def DocumentsInput.len : DocumentsInput → Nat
  | .listOfLists m => m.length
  | .ndarrayDocs m => m.length
  | .listOfNdarrays m => m.length

/-- The tail of `build_index_from_documents` after `xb` is formed:
dimension bookkeeping (`if not self.dimensions: self.dimensions = xb.shape[1]`
— Python truthiness treats a configured `0` like `None` — else
`assert self.dimensions == xb.shape[1]`), then
`self.index = faiss.IndexFlatIP(self.dimensions); self.index.add(xb);
self.indexed = True`.  `cols` is `xb.shape[1]`. -/
def checkDimsAndAdd (r : FAISSRetriever) (xb : List (List ℚ)) (cols : Nat) :
    FAISSRetriever × Option Err :=
  if r.dimensions.getD 0 = 0 then
    ({ r with dimensions := some cols
            , index := some ⟨cols, xb⟩
            , indexed := true }, none)
  else if r.dimensions.getD 0 = cols then
    ({ r with index := some ⟨r.dimensions.getD 0, xb⟩, indexed := true }, none)
  else
    (r, some .dimensionMismatchConfigured)

/-- The body of the `try:` block of `build_index_from_documents`, returning
the state as mutated up to the point of an exception.
`self.total_chunks = len(documents)` happens first; then
`if not isinstance(documents, np.ndarray) and isinstance(documents[0], Sequence)`
(note `documents[0]` raises `IndexError` on an empty list) the
same-size `assert` runs and `xb = np.array(documents)`, else `xb = documents`
(for a list of ndarrays `xb.shape` then raises `AttributeError`). -/
def buildGo (r : FAISSRetriever) (docs : DocumentsInput) :
    FAISSRetriever × Option Err :=
  let r1 := { r with total_chunks := docs.len }
  match docs with
  | .listOfLists m =>
    match m with
    | [] => (r1, some .indexError)
    | d0 :: _ =>
      if m.all (fun doc => doc.length = d0.length) then
        checkDimsAndAdd r1 m d0.length
      else
        (r1, some .dimensionMismatchCorpus)
  | .ndarrayDocs m =>
    match m.head? with
    | none => (r1, some .indexError)
    | some d0 => checkDimsAndAdd r1 m d0.length
  | .listOfNdarrays _ => (r1, some .attributeError)

/-- `build_index_from_documents`: runs the `try:` body; on any exception the
`except` clause calls `self.reset_index()` and re-raises. -/
def build_index_from_documents (r : FAISSRetriever) (docs : DocumentsInput) :
    FAISSRetriever × Option Err :=
  match buildGo r docs with
  | (r', none) => (r', none)
  | (r', some e) => (reset_index r', some e)

/-- `np.round` to zero decimals: round half to even (numpy's documented
rounding mode). -/
def roundHalfEven (x : ℚ) : ℤ :=
  if x - (⌊x⌋ : ℚ) < 1/2 then ⌊x⌋
  else if 1/2 < x - (⌊x⌋ : ℚ) then ⌊x⌋ + 1
  else if Even ⌊x⌋ then ⌊x⌋ else ⌊x⌋ + 1

/-- `_convert_cosine_similarity_to_probability`, elementwise:
`D = (D + 1) / 2; D = np.round(D, 3)`. -/
def convert_cosine_similarity_to_probability (s : ℚ) : ℚ :=
  ((roundHalfEven (((s + 1) / 2) * 1000) : ℚ)) / 1000

/-- `_convert_cosine_similarity_to_probability` applied to the whole score
matrix `D`. -/
def convertMatrix (D : List (List ℚ)) : List (List ℚ) :=
  D.map (fun row => row.map convert_cosine_similarity_to_probability)

/-- Inner product of two vectors (`IndexFlatIP` similarity). -/
def dot (u v : List ℚ) : ℚ :=
  (List.zipWith (fun a b => a * b) u v).sum

/-- Ranking order used to model the index's deterministic search order:
higher score first, ties by ascending document index (spec §4.1: "ties
broken by the underlying index's natural order — … must be deterministic"). -/
def scoreRank (a b : Nat × ℚ) : Prop :=
  b.2 < a.2 ∨ (a.2 = b.2 ∧ a.1 ≤ b.1)

instance : DecidableRel scoreRank := fun a b => by
  unfold scoreRank; infer_instance

/-- Modelled from the spec (§4.1 `search`): the sentinel score filling the
missing slots when the corpus is smaller than `k`; its value is
implementation-defined and never observable past sentinel filtering. -/
def sentinelScore : ℚ := -(2 ^ 128)

/-- Modelled from the spec (§4.1/§6): one row of `faiss.IndexFlatIP.search`
for query `q` — exact inner-product scores against all stored vectors,
ordered by descending similarity, truncated to `k`, missing slots padded
with sentinel index `-1`. -/
def searchRow (vectors : List (List ℚ)) (q : List ℚ) (k : Nat) :
    List ℚ × List Int :=
  let scored := vectors.enum.map (fun p => (p.1, dot p.2 q))
  let ranked := List.insertionSort scoreRank scored
  let top := ranked.take k
  (top.map (fun p => p.2) ++ List.replicate (k - scored.length) sentinelScore,
   top.map (fun p => (p.1 : Int)) ++ List.replicate (k - scored.length) (-1))

/-- Modelled from the spec (§6): `index.search(xq, k) -> (D, Ind)`, row-aligned
with the query batch; FAISS rejects query rows whose dimension differs from
the index dimension. -/
def faissSearch (idx : IndexFlatIP) (xq : List (List ℚ)) (k : Nat) :
    Except Err (List (List ℚ) × List (List Int)) :=
  if xq.all (fun row => row.length = idx.d) then
    .ok (xq.map (fun q => (searchRow idx.vectors q k).1),
         xq.map (fun q => (searchRow idx.vectors q k).2))
  else
    .error .faissDimMismatch

/-- Modelled from the spec: `np.array(rows, dtype=np.float32)` for a list of
vectors, i.e. forming the query matrix; a ragged list is rejected
(`ValueError`), and the result is row-aligned with the input (§6). -/
def npToMatrix (rows : List (List ℚ)) : Except Err (List (List ℚ)) :=
  match rows with
  | [] => .ok []
  | r0 :: _ =>
    if rows.all (fun row => row.length = r0.length) then .ok rows
    else .error .valueErrorRagged

/-- `top_k if top_k else self.top_k` — Python truthiness: an explicit `0`
falls back to the default as well. -/
def effTopK (top_k : Option Nat) (dflt : Nat) : Nat :=
  match top_k with
  | none => dflt
  | some k => if k = 0 then dflt else k

/-- Keep the entries of `row` whose column position satisfies `keep`
(the numpy boolean-mask column selection `M[:, valid_columns]`, one row). -/
def filterRow (keep : Nat → Bool) (row : List α) : List α :=
  (row.enum.filter (fun p => keep p.1)).map (fun p => p.2)

/-- `_to_retriever_output(Ind, D)`: if the sentinel `-1` occurs anywhere in
`Ind`, drop every column that contains a `-1` in any row — uniformly from
both matrices — then emit one `RetrieverOutput` per row of
`zip(Ind, D)` (its `query` field keeps its `None` default). -/
def to_retriever_output (ind : List (List Int)) (d : List (List ℚ)) :
    List RetrieverOutput :=
  let keep : Nat → Bool := fun c => ind.all (fun row => row.getD c 0 ≠ -1)
  let pair :=
    if ind.any (fun row => row.contains (-1)) then
      (ind.map (filterRow keep), d.map (filterRow keep))
    else (ind, d)
  (pair.1.zip pair.2).map
    (fun p => { doc_indices := p.1, doc_scores := p.2, query := none })

/-- The shapes admitted by `FAISSRetrieverEmbeddingInputType`:
`List[float]`, `List[List[float]]`, or `np.ndarray`. -/
inductive EmbeddingInput where
  | floats (v : List ℚ)
  | floatMatrix (m : List (List ℚ))
  | ndarray (m : List (List ℚ))
deriving DecidableEq

/-- `retrieve_embedding_queries(input, top_k)`.  The conversion
`xq = np.array(input, dtype=np.float32)` runs only under
`if not isinstance(input, np.ndarray)`, so for an ndarray input the local
`xq` is never assigned and evaluating `self.index.search(xq, …)` raises
`UnboundLocalError` (after the `self.index.search` attribute lookup, which
raises `AttributeError` when `self.index` is `None`).  A single flat vector
converts to a 1-D array, which the index's search rejects. -/
def retrieve_embedding_queries (r : FAISSRetriever) (input : EmbeddingInput)
    (top_k : Option Nat) : Except Err (List RetrieverOutput) :=
  match input with
  | .ndarray _ =>
    match r.index with
    | none => .error .attributeError
    | some _ => .error .unboundLocalXq
  | .floats _ =>
    match r.index with
    | none => .error .attributeError
    | some _ => .error .faissShapeError
  | .floatMatrix m =>
    match npToMatrix m with
    | .error e => .error e
    | .ok xq =>
      match r.index with
      | none => .error .attributeError
      | some idx =>
        match faissSearch idx xq (effTopK top_k r.top_k) with
        | .error e => .error e
        | .ok (dm, ind) => .ok (to_retriever_output ind (convertMatrix dm))

/-- The two shapes of `retrieve_string_queries`' input:
a single string or a list of strings. -/
inductive StringInput where
  | str (s : String)
  | strList (l : List String)
deriving DecidableEq

/-- The loop `for i, q in enumerate(queries)` of `retrieve_string_queries`
starting at original position `i` with `v` survivors already collected:
empty strings are skipped, every other query is appended to
`valid_queries` and `record_map[len(valid_queries) - 1] = i` is recorded. -/
def buildValidAux : Nat → Nat → List String → List String × List (Nat × Nat)
  | _, _, [] => ([], [])
  | i, v, q :: rest =>
    if q = "" then buildValidAux (i + 1) v rest
    else
      let p := buildValidAux (i + 1) (v + 1) rest
      (q :: p.1, (v, i) :: p.2)

/-- `valid_queries` and `record_map` for a whole query batch. -/
def buildValid (queries : List String) : List String × List (Nat × Nat) :=
  buildValidAux 0 0 queries

/-- `record_map[k]` (Python `dict` access by key). -/
def rmLookup (k : Nat) : List (Nat × Nat) → Option Nat
  | [] => none
  | (a, b) :: t => if a = k then some b else rmLookup k t

/-- Replace the element at position `n` (Python `lst[n].f = …`); positions
produced by `record_map` are always in range. -/
def modifyAt (l : List α) (n : Nat) (f : α → α) : List α :=
  match l, n with
  | [], _ => []
  | a :: t, 0 => f a :: t
  | a :: t, n + 1 => a :: modifyAt t n f

/-- The final loop of `retrieve_string_queries`:
`for i, per_query_output in enumerate(retrieved_output): initial_index =
record_map[i]; output[initial_index].doc_indices = …; ….doc_scores = …`,
with `i` starting from `start`.  A missing `record_map` key is a
`KeyError`. -/
def fillLoop (rm : List (Nat × Nat)) :
    List RetrieverOutput → Nat → List RetrieverOutput →
    Except Err (List RetrieverOutput)
  | out, _, [] => .ok out
  | out, i, per :: rest =>
    match rmLookup i rm with
    | none => .error .keyError
    | some idx =>
      fillLoop rm
        (modifyAt out idx (fun o =>
          { o with doc_indices := per.doc_indices
                 , doc_scores := per.doc_scores }))
        (i + 1) rest

/-- `retrieve_string_queries(input, top_k)`: empty-index guard
(`self.index.ntotal == 0` → `ValueError`), single-string wrapping,
empty-query filtering with `record_map`, one batched embedder call,
search, score conversion, allocation of one default
`RetrieverOutput(doc_indices=[], query=query)` per original query, and the
fill loop copying each survivor's result to its original position. -/
def retrieve_string_queries (r : FAISSRetriever) (input : StringInput)
    (top_k : Option Nat) : Except Err (List RetrieverOutput) :=
  match r.index with
  | none => .error .attributeError
  | some idx =>
    if idx.vectors.length = 0 then .error .valueErrorEmptyIndex
    else
      let queries := match input with
        | .str s => [s]
        | .strList l => l
      let vq := buildValid queries
      match r.embedder vq.1 with
      | .error e => .error e
      | .ok queries_embeddings =>
        match npToMatrix queries_embeddings with
        | .error e => .error e
        | .ok xq =>
          match faissSearch idx xq (effTopK top_k r.top_k) with
          | .error e => .error e
          | .ok (dm, ind) =>
            let output := queries.map (fun q =>
              { doc_indices := [], doc_scores := [], query := some q :
                RetrieverOutput })
            let retrieved := to_retriever_output ind (convertMatrix dm)
            fillLoop vq.2 output 0 retrieved

/-- The union input type of `__call__`. -/
inductive RInput where
  | str (s : String)
  | strList (l : List String)
  | floats (v : List ℚ)
  | floatMatrix (m : List (List ℚ))
  | ndarray (m : List (List ℚ))
deriving DecidableEq

/-- `__call__(input, top_k)`: `assert self.indexed`, then route on
`isinstance(input, str) or (isinstance(input, Sequence) and
isinstance(input[0], str))`.  `input[0]` raises `IndexError` on an empty
list; `np.ndarray` is not a `Sequence`, so the second conjunct
short-circuits and ndarrays go to the embedding path. -/
def callRetriever (r : FAISSRetriever) (input : RInput) (top_k : Option Nat) :
    Except Err (List RetrieverOutput) :=
  if r.indexed then
    match input with
    | .str s => retrieve_string_queries r (.str s) top_k
    | .strList l =>
      if l.isEmpty then .error .indexError
      else retrieve_string_queries r (.strList l) top_k
    | .floats v =>
      if v.isEmpty then .error .indexError
      else retrieve_embedding_queries r (.floats v) top_k
    | .floatMatrix m =>
      if m.isEmpty then .error .indexError
      else retrieve_embedding_queries r (.floatMatrix m) top_k
    | .ndarray m => retrieve_embedding_queries r (.ndarray m) top_k
  else .error .assertNotIndexed

/-- A stub embedding provider for concrete instances. -/
def trivialEmbedder : List String → Except Err (List (List ℚ)) :=
  fun _ => .ok []

/-- A freshly constructed retriever (`FAISSRetriever()` with defaults). -/
def r0 : FAISSRetriever := initRetriever trivialEmbedder 5 none

/-- A retriever whose index is ready but holds zero vectors. -/
def remptyIdx : FAISSRetriever :=
  ⟨trivialEmbedder, 5, some 1, some ⟨1, []⟩, true, 0⟩

lemma floor_le_roundHalfEven (x : ℚ) : ⌊x⌋ ≤ roundHalfEven x := by
  unfold roundHalfEven
  split_ifs <;> omega

lemma roundHalfEven_le_floor_add_one (x : ℚ) : roundHalfEven x ≤ ⌊x⌋ + 1 := by
  unfold roundHalfEven
  split_ifs <;> omega

lemma roundHalfEven_mono {x y : ℚ} (h : x ≤ y) :
    roundHalfEven x ≤ roundHalfEven y := by
  have hf : ⌊x⌋ ≤ ⌊y⌋ := Int.floor_le_floor h
  rcases eq_or_lt_of_le hf with heq | hlt
  · have hxy : x - (⌊x⌋ : ℚ) ≤ y - (⌊x⌋ : ℚ) := by linarith
    unfold roundHalfEven
    rw [← heq]
    split_ifs <;> first | omega | (exfalso; linarith)
  · calc roundHalfEven x ≤ ⌊x⌋ + 1 := roundHalfEven_le_floor_add_one x
      _ ≤ ⌊y⌋ := by omega
      _ ≤ roundHalfEven y := floor_le_roundHalfEven y

lemma convert_score_mono {s1 s2 : ℚ} (h : s1 ≤ s2) :
    convert_cosine_similarity_to_probability s1 ≤
      convert_cosine_similarity_to_probability s2 := by
  unfold convert_cosine_similarity_to_probability
  have h1 : ((s1 + 1) / 2) * 1000 ≤ ((s2 + 1) / 2) * 1000 := by linarith
  have h2 := roundHalfEven_mono h1
  have h3 : ((roundHalfEven (((s1 + 1) / 2) * 1000) : ℚ)) ≤
      ((roundHalfEven (((s2 + 1) / 2) * 1000) : ℚ)) := by exact_mod_cast h2
  linarith

/-- C5: the score transform maps `(score + 1) / 2` rounded to 3 decimals;
every raw score in `[-1, 1]` lands in `[0, 1]`, and the transform is
monotone, preserving relative ordering of raw scores. -/
theorem score_transform_bounded_and_monotone :
    (∀ s : ℚ, -1 ≤ s → s ≤ 1 →
      0 ≤ convert_cosine_similarity_to_probability s ∧
        convert_cosine_similarity_to_probability s ≤ 1) ∧
    (∀ s1 s2 : ℚ, s1 ≤ s2 →
      convert_cosine_similarity_to_probability s1 ≤
        convert_cosine_similarity_to_probability s2) := by
  have cb : convert_cosine_similarity_to_probability (-1) = 0 := by
    norm_num [convert_cosine_similarity_to_probability, roundHalfEven]
  have ct : convert_cosine_similarity_to_probability 1 = 1 := by
    norm_num [convert_cosine_similarity_to_probability, roundHalfEven]
  refine ⟨fun s h1 h2 => ⟨?_, ?_⟩, fun s1 s2 h => convert_score_mono h⟩
  · have := convert_score_mono h1
    rw [cb] at this
    exact this
  · have := convert_score_mono h2
    rw [ct] at this
    exact this

/-- Witness for C5 at concrete scores. -/
theorem score_transform_bounded_and_monotone_witness :
    (0 ≤ convert_cosine_similarity_to_probability 0 ∧
      convert_cosine_similarity_to_probability 0 ≤ 1) ∧
    convert_cosine_similarity_to_probability 0 ≤
      convert_cosine_similarity_to_probability (1/2) :=
  ⟨score_transform_bounded_and_monotone.1 0 (by norm_num) (by norm_num),
   score_transform_bounded_and_monotone.2 0 (1/2) (by norm_num)⟩

/-- C9: `reset_index` on any store succeeds, leaves `total_chunks = 0` and
the readiness flag false, and is idempotent. -/
theorem reset_index_idempotent (r : FAISSRetriever) :
    (reset_index r).total_chunks = 0 ∧ (reset_index r).indexed = false ∧
      reset_index (reset_index r) = reset_index r := by
  refine ⟨rfl, rfl, ?_⟩
  cases r with
  | mk emb tk dims idx ixd tc => cases idx <;> rfl

/-- C8 counterexample: on the empty corpus the build fails with the generic
`IndexError` raised by `documents[0]` during format inspection — not with a
dedicated `EmptyCorpusError` — so the failure is the very "crash on shape
inference" the spec's design note attributes to the reference behavior. -/
theorem build_empty_corpus_raises_plain_index_error :
    (build_index_from_documents r0 (.listOfLists [])).2 = some Err.indexError ∧
      some Err.indexError ≠ some Err.emptyCorpus := by
  exact ⟨rfl, by decide⟩

/-- C8 (amended): on the empty corpus `build_index_from_documents` fails —
with the `IndexError` from `documents[0]`, not an explicit
`EmptyCorpusError` — and the store is reset to the empty state
(`total_chunks = 0`, readiness flag false) before the error surfaces. -/
theorem build_empty_corpus_fails_and_resets (r : FAISSRetriever) :
    ∃ r', build_index_from_documents r (.listOfLists []) =
        (r', some Err.indexError) ∧
      r'.total_chunks = 0 ∧ r'.indexed = false := by
  exact ⟨reset_index { r with total_chunks := 0 }, rfl, rfl, rfl⟩

/-- A successful build on a non-empty, uniformly-sized corpus, with
dimensions not preconfigured: the index holds the corpus in order. -/
lemma build_uniform_succeeds (r : FAISSRetriever) (m : List (List ℚ))
    (hne : m ≠ []) (hu : ∀ w ∈ m, w.length = (m.headD []).length)
    (hdim : r.dimensions = none) :
    build_index_from_documents r (.listOfLists m) =
      ({ r with total_chunks := m.length
              , dimensions := some (m.headD []).length
              , index := some ⟨(m.headD []).length, m⟩
              , indexed := true }, none) := by
  cases m with
  | nil => exact absurd rfl hne
  | cons d0 t =>
    have hall : ((d0 :: t).all fun doc => decide (doc.length = d0.length)) =
        true := by
      rw [List.all_eq_true]
      intro doc hdoc
      simpa using hu doc hdoc
    unfold build_index_from_documents buildGo checkDimsAndAdd
    simp only [DocumentsInput.len, List.headD_cons, hall, if_true, hdim,
      Option.getD_none, if_pos rfl]

/-- C2: any corpus containing two vectors of unequal lengths makes
`build_index_from_documents` fail with the dimension-mismatch assertion and
leaves the store empty (`indexed = false`, `total_chunks = 0`), after which
a valid uniform build succeeds. -/
theorem build_mismatched_corpus_resets (r : FAISSRetriever)
    (m : List (List ℚ)) (u v : List ℚ)
    (hu : u ∈ m) (hv : v ∈ m) (huv : u.length ≠ v.length) :
    ∃ r', build_index_from_documents r (.listOfLists m) =
        (r', some Err.dimensionMismatchCorpus) ∧
      r'.indexed = false ∧ r'.total_chunks = 0 ∧
      r'.dimensions = r.dimensions ∧
      (∀ m₂ : List (List ℚ), m₂ ≠ [] →
        (∀ w ∈ m₂, w.length = (m₂.headD []).length) →
        r.dimensions = none →
        ∃ r'', build_index_from_documents r' (.listOfLists m₂) = (r'', none) ∧
          r''.indexed = true ∧ r''.total_chunks = m₂.length) := by
  cases m with
  | nil => exact absurd hu (by simp)
  | cons d0 t =>
    have hall : ((d0 :: t).all fun doc => decide (doc.length = d0.length)) =
        false := by
      rcases Bool.eq_false_or_eq_true
          ((d0 :: t).all fun doc => decide (doc.length = d0.length)) with
        ht | hf
      · exfalso
        have hmem := List.all_eq_true.mp ht
        have h1 : u.length = d0.length := by simpa using hmem u hu
        have h2 : v.length = d0.length := by simpa using hmem v hv
        exact huv (h1.trans h2.symm)
      · exact hf
    have hbuild : build_index_from_documents r (.listOfLists (d0 :: t)) =
        (reset_index { r with total_chunks := (d0 :: t).length },
          some Err.dimensionMismatchCorpus) := by
      unfold build_index_from_documents buildGo
      simp only [DocumentsInput.len, hall, if_false, Bool.false_eq_true]
    refine ⟨reset_index { r with total_chunks := (d0 :: t).length },
      hbuild, rfl, rfl, rfl, ?_⟩
    intro m₂ hne2 hu2 hdim
    refine ⟨_, build_uniform_succeeds _ m₂ hne2 hu2 ?_, rfl, rfl⟩
    simpa [reset_index] using hdim

/-- The states reachable without any successful `build_index_from_documents`
call: freshly constructed, after a failed build, or after a reset. -/
inductive NoSuccessfulBuild : FAISSRetriever → Prop
  | init (e : List String → Except Err (List (List ℚ)))
      (tk : Nat) (dims : Option Nat) :
      NoSuccessfulBuild (initRetriever e tk dims)
  | buildFailed {r r' : FAISSRetriever} {docs : DocumentsInput} {err : Err} :
      NoSuccessfulBuild r →
      build_index_from_documents r docs = (r', some err) →
      NoSuccessfulBuild r'
  | wasReset (r : FAISSRetriever) :
      NoSuccessfulBuild r → NoSuccessfulBuild (reset_index r)

lemma NoSuccessfulBuild.indexed_false {r : FAISSRetriever}
    (h : NoSuccessfulBuild r) : r.indexed = false := by
  induction h with
  | init e tk dims => rfl
  | @buildFailed r r' docs err _ heq _ =>
    unfold build_index_from_documents at heq
    rcases hgo : buildGo r docs with ⟨r₁, oerr⟩
    rw [hgo] at heq
    cases oerr with
    | none => exact absurd heq (by simp)
    | some e =>
      have : r' = reset_index r₁ := by
        have := congrArg Prod.fst heq
        exact this.symm
      rw [this]
      rfl
  | wasReset r _ _ => rfl

/-- C6: on a retriever on which no build has ever succeeded, every retrieve
call fails with the index-not-ready assertion (`assert self.indexed`),
regardless of the input, the configured embedder, or `top_k` — so no search
or embedding is ever attempted. -/
theorem call_before_build_fails (r : FAISSRetriever)
    (h : NoSuccessfulBuild r) (input : RInput) (top_k : Option Nat) :
    callRetriever r input top_k = .error .assertNotIndexed := by
  unfold callRetriever
  rw [h.indexed_false]
  simp

/-- Witness for C6: a fresh retriever rejects a text query. -/
theorem call_before_build_fails_witness :
    callRetriever r0 (.str "hello") none = .error .assertNotIndexed :=
  call_before_build_fails r0 (NoSuccessfulBuild.init trivialEmbedder 5 none)
    (.str "hello") none

/-- C7: with a ready index holding zero vectors, every text-path call fails
with the `ValueError("Index is empty…")` guard — before any embedding — while
the vector path has no such check and returns normally on the same store. -/
theorem empty_index_only_text_path_errors (r : FAISSRetriever)
    (idx : IndexFlatIP) (h1 : r.index = some idx) (h2 : idx.vectors = []) :
    (∀ input top_k, retrieve_string_queries r input top_k =
        .error .valueErrorEmptyIndex) ∧
    (∀ (m : List (List ℚ)) top_k, (∀ w ∈ m, w.length = idx.d) →
      ∃ out, retrieve_embedding_queries r (.floatMatrix m) top_k = .ok out) := by
  constructor
  · intro input top_k
    unfold retrieve_string_queries
    rw [h1]
    dsimp only
    rw [h2]
    rfl
  · intro m top_k hw
    unfold retrieve_embedding_queries
    dsimp only
    have hnp : npToMatrix m = .ok m := by
      cases m with
      | nil => rfl
      | cons w0 t =>
        unfold npToMatrix
        have : ((w0 :: t).all fun row => decide (row.length = w0.length)) =
            true := by
          rw [List.all_eq_true]
          intro row hrow
          have ha := hw row hrow
          have hb := hw w0 (by simp)
          simp [ha, hb]
        simp [this]
    rw [hnp]
    dsimp only
    rw [h1]
    dsimp only
    have hs : faissSearch idx m (effTopK top_k r.top_k) =
        .ok (m.map (fun q => (searchRow idx.vectors q
              (effTopK top_k r.top_k)).1),
             m.map (fun q => (searchRow idx.vectors q
              (effTopK top_k r.top_k)).2)) := by
      unfold faissSearch
      have : (m.all fun row => decide (row.length = idx.d)) = true := by
        rw [List.all_eq_true]
        intro row hrow
        simpa using hw row hrow
      simp [this]
    rw [hs]
    exact ⟨_, rfl⟩

/-- Witness for C7 on a concrete ready-but-empty store. -/
theorem empty_index_only_text_path_errors_witness :
    retrieve_string_queries remptyIdx (.str "q") none =
        .error .valueErrorEmptyIndex ∧
      ∃ out, retrieve_embedding_queries remptyIdx
        (.floatMatrix [[(1 : ℚ)]]) none = .ok out :=
  ⟨(empty_index_only_text_path_errors remptyIdx ⟨1, []⟩ rfl rfl).1
      (.str "q") none,
   (empty_index_only_text_path_errors remptyIdx ⟨1, []⟩ rfl rfl).2
      [[(1 : ℚ)]] none (by simp [remptyIdx])⟩

/-- C10: for a query that is already a numpy ndarray — a shape
`FAISSRetrieverEmbeddingInputType` admits — `retrieve_embedding_queries`
raises before returning any result (the `UnboundLocalError` on `xq`, since
`xq` is only assigned on the non-ndarray branch); consequently an `.ok`
result is unreachable for ndarray input. -/
theorem ndarray_query_raises_unbound_local (r : FAISSRetriever)
    (idx : IndexFlatIP) (m : List (List ℚ)) (top_k : Option Nat)
    (h : r.index = some idx) :
    retrieve_embedding_queries r (.ndarray m) top_k =
        .error .unboundLocalXq ∧
      ∀ out, retrieve_embedding_queries r (.ndarray m) top_k ≠ .ok out := by
  unfold retrieve_embedding_queries
  rw [h]
  exact ⟨rfl, by simp⟩

/-- Witness for C10 on a concrete store with a ready index. -/
theorem ndarray_query_raises_unbound_local_witness :
    retrieve_embedding_queries remptyIdx (.ndarray [[(1 : ℚ)]]) none =
        .error .unboundLocalXq ∧
      ∀ out, retrieve_embedding_queries remptyIdx
        (.ndarray [[(1 : ℚ)]]) none ≠ .ok out :=
  ndarray_query_raises_unbound_local remptyIdx ⟨1, []⟩ [[(1 : ℚ)]] none rfl

lemma dot_cons (a b : ℚ) (u v : List ℚ) :
    dot (a :: u) (b :: v) = a * b + dot u v := by
  simp [dot]

lemma dot_self_nonneg (v : List ℚ) : 0 ≤ dot v v := by
  induction v with
  | nil => simp [dot]
  | cons a t ih =>
    rw [dot_cons]
    have := mul_self_nonneg a
    linarith

lemma dot_sub_expand (u v : List ℚ) (h : u.length = v.length) :
    dot (List.zipWith (fun a b => a - b) u v)
        (List.zipWith (fun a b => a - b) u v) =
      dot u u - 2 * dot u v + dot v v := by
  induction u generalizing v with
  | nil =>
    cases v with
    | nil => simp [dot]
    | cons b t => simp at h
  | cons a u ih =>
    cases v with
    | nil => simp at h
    | cons b t =>
      simp only [List.zipWith_cons_cons, dot_cons]
      rw [ih t (by simpa using h)]
      ring

lemma eq_of_dot_sub_self_eq_zero (u v : List ℚ) (h : u.length = v.length)
    (hz : dot (List.zipWith (fun a b => a - b) u v)
        (List.zipWith (fun a b => a - b) u v) = 0) :
    u = v := by
  induction u generalizing v with
  | nil =>
    cases v with
    | nil => rfl
    | cons b t => simp at h
  | cons a u ih =>
    cases v with
    | nil => simp at h
    | cons b t =>
      simp only [List.zipWith_cons_cons, dot_cons] at hz
      have h1 : 0 ≤ (a - b) * (a - b) := mul_self_nonneg _
      have h2 : 0 ≤ dot (List.zipWith (fun a b => a - b) u t)
          (List.zipWith (fun a b => a - b) u t) := dot_self_nonneg _
      have hab : (a - b) * (a - b) = 0 := by linarith
      have hr : dot (List.zipWith (fun a b => a - b) u t)
          (List.zipWith (fun a b => a - b) u t) = 0 := by linarith
      have hab2 : a = b := by
        have := mul_self_eq_zero.mp hab
        linarith
      rw [hab2, ih t (by simpa using h) hr]

lemma dot_lt_one_of_ne (u v : List ℚ) (h : u.length = v.length)
    (hu : dot u u = 1) (hv : dot v v = 1) (hne : u ≠ v) : dot u v < 1 := by
  have hexp := dot_sub_expand u v h
  have hnn := dot_self_nonneg (List.zipWith (fun a b => a - b) u v)
  have hle : dot u v ≤ 1 := by
    rw [hexp, hu, hv] at hnn
    linarith
  rcases lt_or_eq_of_le hle with hlt | heq
  · exact hlt
  · exfalso
    apply hne
    apply eq_of_dot_sub_self_eq_zero u v h
    rw [hexp, hu, hv, heq]
    ring

instance : IsTrans (Nat × ℚ) scoreRank := by
  constructor
  intro a b c hab hbc
  unfold scoreRank at *
  rcases hab with h1 | ⟨h1, h2⟩ <;> rcases hbc with h3 | ⟨h3, h4⟩
  · exact Or.inl (by linarith)
  · exact Or.inl (by rw [← h3]; exact h1)
  · exact Or.inl (by rw [h1]; exact h3)
  · exact Or.inr ⟨h1.trans h3, h2.trans h4⟩

instance : IsTotal (Nat × ℚ) scoreRank := by
  constructor
  intro a b
  unfold scoreRank
  rcases lt_trichotomy a.2 b.2 with h | h | h
  · exact Or.inr (Or.inl h)
  · rcases Nat.le_total a.1 b.1 with hn | hn
    · exact Or.inl (Or.inr ⟨h, hn⟩)
    · exact Or.inr (Or.inr ⟨h.symm, hn⟩)
  · exact Or.inl (Or.inl h)

/-- In the deterministic ranking, an element that no other list member
outranks comes first. -/
lemma insertionSort_head_of_unique_max (l : List (Nat × ℚ)) (m : Nat × ℚ)
    (hm : m ∈ l) (hmax : ∀ a ∈ l, a ≠ m → ¬ scoreRank a m) :
    (List.insertionSort scoreRank l).head? = some m := by
  have hs := List.sorted_insertionSort scoreRank l
  have hp := List.perm_insertionSort scoreRank l
  have hm' : m ∈ List.insertionSort scoreRank l := hp.mem_iff.mpr hm
  cases hsort : List.insertionSort scoreRank l with
  | nil =>
    rw [hsort] at hm'
    cases hm'
  | cons x xs =>
    rw [hsort] at hm' hs
    rcases List.mem_cons.mp hm' with rfl | hmt
    · rfl
    · by_cases heq : x = m
      · rw [heq]
        rfl
      · have hrel := List.rel_of_sorted_cons hs m hmt
        have hxl : x ∈ l := hp.mem_iff.mp (by rw [hsort]; exact List.mem_cons_self x xs)
        exact absurd hrel (hmax x hxl heq)

lemma filterRow_head (keep : Nat → Bool) (a : α) (t : List α)
    (h : keep 0 = true) : (filterRow keep (a :: t)).head? = some a := by
  simp [filterRow, List.enum_cons, List.filter_cons, h]

/-- The first entry of a search row is the unique top-ranked document. -/
lemma searchRow_head (vectors : List (List ℚ)) (q : List ℚ) (k : Nat)
    (m : Nat × ℚ)
    (hm : m ∈ vectors.enum.map (fun p => (p.1, dot p.2 q)))
    (hmax : ∀ a ∈ vectors.enum.map (fun p => (p.1, dot p.2 q)),
      a ≠ m → ¬ scoreRank a m)
    (hk : 1 ≤ k) :
    (searchRow vectors q k).2.head? = some ((m.1 : Nat) : Int) := by
  unfold searchRow
  have hh := insertionSort_head_of_unique_max _ m hm hmax
  obtain ⟨k', rfl⟩ : ∃ k', k = k' + 1 := ⟨k - 1, by omega⟩
  cases hsort : List.insertionSort scoreRank
      (vectors.enum.map (fun p => (p.1, dot p.2 q))) with
  | nil =>
    rw [hsort] at hh
    simp at hh
  | cons x xs =>
    rw [hsort] at hh
    have hx : x = m := by simpa using hh
    subst hx
    simp [hsort, List.take_succ_cons]

/-- Assembling a single-row search result whose leading index is not the
sentinel keeps that index in front. -/
lemma to_retriever_output_single (row : List Int) (drow : List ℚ) (a : Int)
    (hhead : row.head? = some a) (ha : a ≠ -1) :
    ∃ o, to_retriever_output [row] [drow] = [o] ∧
      o.doc_indices.head? = some a := by
  obtain ⟨t, rfl⟩ : ∃ t, row = a :: t := by
    cases row with
    | nil => simp at hhead
    | cons x t =>
      have : x = a := by simpa using hhead
      exact ⟨t, by rw [this]⟩
  by_cases hs : ([a :: t].any fun row => row.contains (-1)) = true
  · have hout : to_retriever_output [a :: t] [drow] =
        [⟨filterRow
            (fun c => [a :: t].all fun row => decide (row.getD c 0 ≠ -1))
            (a :: t),
          filterRow
            (fun c => [a :: t].all fun row => decide (row.getD c 0 ≠ -1))
            drow, none⟩] := by
      simp only [to_retriever_output, hs, if_true]
      rfl
    refine ⟨_, hout, ?_⟩
    show (filterRow
        (fun c => [a :: t].all fun row => decide (row.getD c 0 ≠ -1))
        (a :: t)).head? = some a
    apply filterRow_head
    simp [ha]
  · have hs' : ([a :: t].any fun row => row.contains (-1)) = false := by
      revert hs
      cases ([a :: t].any fun row => row.contains (-1)) <;> simp
    have hout : to_retriever_output [a :: t] [drow] =
        [⟨a :: t, drow, none⟩] := by
      simp only [to_retriever_output, hs', Bool.false_eq_true, if_false]
      rfl
    exact ⟨_, hout, rfl⟩

/-- C3 counterexample: the claim fails without unit normalization.  For the
uniformly-sized corpus `[[1], [2]]`, the build succeeds, but querying with
the corpus vector `[1]` at position 0 returns document 1 first — its inner
product (2) beats the query's self-similarity (1). -/
theorem self_query_not_top_without_normalization :
    (build_index_from_documents r0 (.listOfLists [[(1 : ℚ)], [(2 : ℚ)]])).2 =
        none ∧
      ∃ o, retrieve_embedding_queries
          (build_index_from_documents r0
            (.listOfLists [[(1 : ℚ)], [(2 : ℚ)]])).1
          (.floatMatrix [[(1 : ℚ)]]) none = .ok [o] ∧
        o.doc_indices.head? = some 1 ∧ o.doc_indices.head? ≠ some 0 := by
  have hbuild := build_uniform_succeeds r0 [[(1 : ℚ)], [(2 : ℚ)]]
    (by simp) (by decide) rfl
  refine ⟨by rw [hbuild], ?_⟩
  rw [hbuild]
  have hhead : (searchRow [[(1 : ℚ)], [(2 : ℚ)]] [(1 : ℚ)] 5).2.head? =
      some ((1 : Nat) : Int) := by
    apply searchRow_head _ _ _ ((1 : Nat), dot [(2 : ℚ)] [(1 : ℚ)])
    · simp [List.enum, List.enumFrom]
    · intro a hamem hane
      have hd1 : dot [(1 : ℚ)] [(1 : ℚ)] = 1 := by norm_num [dot]
      have hd2 : dot [(2 : ℚ)] [(1 : ℚ)] = 2 := by norm_num [dot]
      simp only [List.enum, List.enumFrom, List.map, List.mem_cons,
        List.not_mem_nil, or_false] at hamem
      rcases hamem with ha | ha
      · rw [ha]
        intro hsr
        rcases hsr with h | ⟨h, _⟩
        · rw [hd1, hd2] at h
          norm_num at h
        · rw [hd1, hd2] at h
          norm_num at h
      · exact absurd ha hane
    · omega
  obtain ⟨o, hout, hohead⟩ :=
    to_retriever_output_single
      ((searchRow [[(1 : ℚ)], [(2 : ℚ)]] [(1 : ℚ)] 5).2)
      (((searchRow [[(1 : ℚ)], [(2 : ℚ)]] [(1 : ℚ)] 5).1).map
        convert_cosine_similarity_to_probability)
      ((1 : Nat) : Int) hhead (by omega)
  refine ⟨o, ?_, by simpa using hohead, by simp [hohead]⟩
  unfold retrieve_embedding_queries
  dsimp only
  rw [show npToMatrix [[(1 : ℚ)]] = .ok [[(1 : ℚ)]] from by simp [npToMatrix]]
  dsimp only
  rw [show faissSearch
      ⟨([[(1 : ℚ)], [(2 : ℚ)]].headD []).length, [[(1 : ℚ)], [(2 : ℚ)]]⟩
      [[(1 : ℚ)]] (effTopK none r0.top_k) =
      .ok ([(searchRow [[(1 : ℚ)], [(2 : ℚ)]] [(1 : ℚ)] 5).1],
           [(searchRow [[(1 : ℚ)], [(2 : ℚ)]] [(1 : ℚ)] 5).2]) from by
    unfold faissSearch
    rw [if_pos (by decide)]
    rfl]
  dsimp only
  rw [show convertMatrix [(searchRow [[(1 : ℚ)], [(2 : ℚ)]] [(1 : ℚ)] 5).1] =
      [((searchRow [[(1 : ℚ)], [(2 : ℚ)]] [(1 : ℚ)] 5).1).map
        convert_cosine_similarity_to_probability] from rfl]
  rw [hout]

/-- C3 (amended): for a corpus of one or more uniformly-sized,
unit-normalized, pairwise-distinct vectors and the dimension not
preconfigured, the build succeeds and retrieving with the corpus vector at
position `i` (as a one-row batch, with an effective `top_k ≥ 1`) returns
`i` as the first document index — search being exact inner-product top-k
over the corpus. -/
theorem build_then_self_query_top (r : FAISSRetriever)
    (corpus : List (List ℚ)) (i : Nat) (v : List ℚ) (top_k : Option Nat)
    (hdims : r.dimensions = none)
    (huniform : ∀ w ∈ corpus, w.length = (corpus.headD []).length)
    (hunit : ∀ w ∈ corpus, dot w w = 1)
    (hdist : corpus.Pairwise (fun a b => a ≠ b))
    (hget : corpus[i]? = some v)
    (hk : 1 ≤ effTopK top_k r.top_k) :
    ∃ r', build_index_from_documents r (.listOfLists corpus) = (r', none) ∧
      ∃ o, retrieve_embedding_queries r' (.floatMatrix [v]) top_k =
          .ok [o] ∧
        o.doc_indices.head? = some ((i : Nat) : Int) := by
  have hvmem : v ∈ corpus := by
    obtain ⟨hi, rfl⟩ := List.getElem?_eq_some.mp hget
    exact List.getElem_mem hi
  have hne : corpus ≠ [] := by
    intro h
    rw [h] at hget
    simp at hget
  have hbuild := build_uniform_succeeds r corpus hne huniform hdims
  refine ⟨_, hbuild, ?_⟩
  have hhead : ∀ k, 1 ≤ k →
      (searchRow corpus v k).2.head? = some (Int.ofNat i) := by
    intro k hk1
    have hm : ((i, dot v v) : Nat × ℚ) ∈
        corpus.enum.map (fun p => (p.1, dot p.2 v)) :=
      List.mem_map.mpr ⟨(i, v), List.mk_mem_enum_iff_getElem?.mpr hget, rfl⟩
    have hmax : ∀ a ∈ corpus.enum.map (fun p => (p.1, dot p.2 v)),
        a ≠ (i, dot v v) → ¬ scoreRank a (i, dot v v) := by
      intro a hamem hane
      obtain ⟨p, hpmem, rfl⟩ := List.mem_map.mp hamem
      have hpget : corpus[p.1]? = some p.2 :=
        List.mem_enum_iff_getElem?.mp hpmem
      by_cases hj : p.1 = i
      · exfalso
        apply hane
        have : p.2 = v := by
          rw [hj] at hpget
          rw [hpget] at hget
          exact Option.some.inj hget
        rw [hj, this]
      · have hwmem : p.2 ∈ corpus := by
          obtain ⟨hl, hv2⟩ := List.getElem?_eq_some.mp hpget
          rw [← hv2]
          exact List.getElem_mem hl
        have hwne : p.2 ≠ v := by
          obtain ⟨hl1, hv1⟩ := List.getElem?_eq_some.mp hpget
          obtain ⟨hl2, hv2⟩ := List.getElem?_eq_some.mp hget
          rcases Nat.lt_or_ge p.1 i with hlt | hge
          · have := List.pairwise_iff_getElem.mp hdist p.1 i hl1 hl2 hlt
            rw [hv1, hv2] at this
            exact this
          · have hgt : i < p.1 := Nat.lt_of_le_of_ne hge (fun h => hj h.symm)
            have := List.pairwise_iff_getElem.mp hdist i p.1 hl2 hl1 hgt
            rw [hv1, hv2] at this
            exact fun h => this h.symm
        have hlt1 : dot p.2 v < 1 :=
          dot_lt_one_of_ne p.2 v
            ((huniform p.2 hwmem).trans (huniform v hvmem).symm)
            (hunit p.2 hwmem) (hunit v hvmem) hwne
        intro hsr
        rcases hsr with h | ⟨h, _⟩
        · dsimp at h
          rw [hunit v hvmem] at h
          linarith
        · dsimp at h
          rw [hunit v hvmem] at h
          linarith
    exact searchRow_head corpus v k (i, dot v v) hm hmax hk1
  unfold retrieve_embedding_queries
  dsimp only
  have hnp : npToMatrix [v] = .ok [v] := by
    simp [npToMatrix]
  rw [hnp]
  dsimp only
  have hsearch : faissSearch ⟨(corpus.headD []).length, corpus⟩ [v]
      (effTopK top_k r.top_k) =
      .ok ([(searchRow corpus v (effTopK top_k r.top_k)).1],
           [(searchRow corpus v (effTopK top_k r.top_k)).2]) := by
    unfold faissSearch
    have : ([v].all fun row => decide (row.length =
        (IndexFlatIP.mk (corpus.headD []).length corpus).d)) = true := by
      simp [huniform v hvmem]
    rw [if_pos this]
    rfl
  rw [hsearch]
  dsimp only
  have hcm : convertMatrix [(searchRow corpus v (effTopK top_k r.top_k)).1] =
      [((searchRow corpus v (effTopK top_k r.top_k)).1).map
        convert_cosine_similarity_to_probability] := rfl
  rw [hcm]
  obtain ⟨o, hout, hohead⟩ :=
    to_retriever_output_single
      ((searchRow corpus v (effTopK top_k r.top_k)).2)
      (((searchRow corpus v (effTopK top_k r.top_k)).1).map
        convert_cosine_similarity_to_probability)
      ((i : Nat) : Int) (hhead _ hk) (by omega)
  rw [hout]
  exact ⟨o, rfl, hohead⟩

/-- Witness for the amended C3 on the concrete unit corpus
`[[1,0],[0,1]]`, querying with the vector at position 1. -/
theorem build_then_self_query_top_witness :
    ∃ r', build_index_from_documents r0
        (.listOfLists [[(1 : ℚ), 0], [(0 : ℚ), 1]]) = (r', none) ∧
      ∃ o, retrieve_embedding_queries r' (.floatMatrix [[(0 : ℚ), 1]]) none =
          .ok [o] ∧
        o.doc_indices.head? = some ((1 : Nat) : Int) :=
  build_then_self_query_top r0 [[(1 : ℚ), 0], [(0 : ℚ), 1]] 1 [(0 : ℚ), 1]
    none rfl (by decide) (by norm_num [dot])
    (by norm_num [List.pairwise_cons]) rfl (by decide)

/-- Witness for C2 on a concrete jagged corpus. -/
theorem build_mismatched_corpus_resets_witness :
    ∃ r', build_index_from_documents r0
        (.listOfLists [[(1 : ℚ)], [(1 : ℚ), 2]]) =
        (r', some Err.dimensionMismatchCorpus) ∧
      r'.indexed = false ∧ r'.total_chunks = 0 ∧
      r'.dimensions = r0.dimensions ∧
      (∀ m₂ : List (List ℚ), m₂ ≠ [] →
        (∀ w ∈ m₂, w.length = (m₂.headD []).length) →
        r0.dimensions = none →
        ∃ r'', build_index_from_documents r' (.listOfLists m₂) =
            (r'', none) ∧
          r''.indexed = true ∧ r''.total_chunks = m₂.length) :=
  build_mismatched_corpus_resets r0 [[(1 : ℚ)], [(1 : ℚ), 2]]
    [(1 : ℚ)] [(1 : ℚ), 2] (by decide) (by decide) (by decide)

lemma ranked_length (vectors : List (List ℚ)) (q : List ℚ) :
    (List.insertionSort scoreRank
      (vectors.enum.map (fun p => (p.1, dot p.2 q)))).length =
      vectors.length := by
  rw [(List.perm_insertionSort scoreRank _).length_eq]
  simp [List.enum_length]

/-- A search row's index list is the ranked real document indices followed
by sentinel padding. -/
lemma searchRow_indices_decomp (vectors : List (List ℚ)) (q : List ℚ)
    (k : Nat) :
    ∃ A : List Nat, A.length = min k vectors.length ∧
      (∀ j ∈ A, j < vectors.length) ∧
      (searchRow vectors q k).2 =
        A.map (fun (j : Nat) => (j : Int)) ++
          List.replicate (k - vectors.length) (-1) := by
  refine ⟨((List.insertionSort scoreRank
      (vectors.enum.map (fun p => (p.1, dot p.2 q)))).take k).map Prod.fst,
    ?_, ?_, ?_⟩
  · simp [List.length_take, ranked_length]
  · intro j hj
    obtain ⟨p, hp, rfl⟩ := List.mem_map.mp hj
    have hp2 : p ∈ List.insertionSort scoreRank
        (vectors.enum.map (fun p => (p.1, dot p.2 q))) :=
      List.mem_of_mem_take hp
    have hp3 : p ∈ vectors.enum.map (fun p => (p.1, dot p.2 q)) :=
      (List.perm_insertionSort scoreRank _).mem_iff.mp hp2
    obtain ⟨e, he, rfl⟩ := List.mem_map.mp hp3
    have h1 := List.mem_enum_iff_getElem?.mp he
    obtain ⟨hlt, _⟩ := List.getElem?_eq_some.mp h1
    exact hlt
  · unfold searchRow
    dsimp only
    rw [List.map_map]
    congr 1
    simp [List.enum_length]

lemma npToMatrix_ok_of_uniform (xq : List (List ℚ)) (d : Nat)
    (h : ∀ w ∈ xq, w.length = d) : npToMatrix xq = .ok xq := by
  cases xq with
  | nil => rfl
  | cons w0 t =>
    unfold npToMatrix
    have hall : ((w0 :: t).all fun row => decide (row.length = w0.length)) =
        true := by
      rw [List.all_eq_true]
      intro row hrow
      have h1 := h row hrow
      have h0 := h w0 (by simp)
      simp [h1, h0]
    simp [hall]

lemma faissSearch_ok_of_uniform (idx : IndexFlatIP) (xq : List (List ℚ))
    (k : Nat) (h : ∀ w ∈ xq, w.length = idx.d) :
    faissSearch idx xq k =
      .ok (xq.map (fun q => (searchRow idx.vectors q k).1),
           xq.map (fun q => (searchRow idx.vectors q k).2)) := by
  unfold faissSearch
  rw [if_pos]
  · rw [List.all_eq_true]
    intro row hrow
    simpa using h row hrow

lemma filterRow_eq_self (keep : Nat → Bool) (row : List α)
    (h : ∀ c, keep c = true) : filterRow keep row = row := by
  unfold filterRow
  rw [List.filter_eq_self.mpr, List.enum_map_snd]
  intro p hp
  simp [h]

lemma filterRow_five (keep : Nat → Bool) (x y a b c : α)
    (h0 : keep 0 = true) (h1 : keep 1 = true) (h2 : keep 2 = false)
    (h3 : keep 3 = false) (h4 : keep 4 = false) :
    filterRow keep [x, y, a, b, c] = [x, y] := by
  unfold filterRow
  simp [List.enum, List.enumFrom, List.filter, h0, h1, h2, h3, h4]

/-- A retriever with a ready 2-vector index, for concrete instances. -/
def r2idx : FAISSRetriever :=
  ⟨trivialEmbedder, 5, some 2, some ⟨2, [[1, 0], [0, 1]]⟩, true, 2⟩

/-- C4: result assembly drops exactly the rank columns in which any row of
the batch holds the sentinel `-1`, with the same column mask applied to
every row and to the score matrix; in particular, searching a 2-vector
corpus with `top_k = 5` yields Results of exactly 2 entries with no
sentinel index. -/
theorem sentinel_columns_dropped_uniformly :
    (∀ (ind : List (List Int)) (d : List (List ℚ)) (j : Nat)
        (row : List Int) (drow : List ℚ),
      ind[j]? = some row → d[j]? = some drow →
      (to_retriever_output ind d)[j]? = some
        ⟨filterRow (fun c => ind.all fun rr => decide (rr.getD c 0 ≠ -1)) row,
         filterRow (fun c => ind.all fun rr => decide (rr.getD c 0 ≠ -1)) drow,
         none⟩) ∧
    (∀ (r : FAISSRetriever) (idx : IndexFlatIP) (xq : List (List ℚ)),
      r.index = some idx → idx.vectors.length = 2 →
      (∀ w ∈ xq, w.length = idx.d) →
      ∃ out, retrieve_embedding_queries r (.floatMatrix xq) (some 5) =
          .ok out ∧
        ∀ o ∈ out, o.doc_indices.length = 2 ∧ (-1 : Int) ∉ o.doc_indices) := by
  constructor
  · intro ind d j row drow h1 h2
    by_cases hany : (ind.any fun rr => rr.contains (-1)) = true
    · have hout : to_retriever_output ind d =
          ((ind.map (filterRow
              (fun c => ind.all fun rr => decide (rr.getD c 0 ≠ -1)))).zip
            (d.map (filterRow
              (fun c => ind.all fun rr => decide (rr.getD c 0 ≠ -1))))).map
            (fun p => ⟨p.1, p.2, none⟩) := by
        simp only [to_retriever_output, hany, if_true]
      rw [hout, List.getElem?_map]
      have hzip : ((ind.map (filterRow
          (fun c => ind.all fun rr => decide (rr.getD c 0 ≠ -1)))).zip
            (d.map (filterRow
              (fun c => ind.all fun rr => decide (rr.getD c 0 ≠ -1)))))[j]? =
          some (filterRow
              (fun c => ind.all fun rr => decide (rr.getD c 0 ≠ -1)) row,
            filterRow
              (fun c => ind.all fun rr => decide (rr.getD c 0 ≠ -1)) drow) := by
        rw [List.getElem?_zip_eq_some]
        constructor
        · rw [List.getElem?_map, h1]
          rfl
        · rw [List.getElem?_map, h2]
          rfl
      rw [hzip]
      rfl
    · have hne : (ind.any fun rr => rr.contains (-1)) = false := by
        revert hany
        cases (ind.any fun rr => rr.contains (-1)) <;> simp
      have hK : ∀ c, (ind.all fun rr => decide (rr.getD c 0 ≠ -1)) = true := by
        intro c
        rw [List.all_eq_true]
        intro rr hrr
        simp only [decide_eq_true_eq]
        intro hgd
        rw [List.getD_eq_getElem?_getD] at hgd
        cases hg : rr[c]? with
        | none =>
          rw [hg] at hgd
          simp at hgd
        | some z =>
          rw [hg] at hgd
          simp at hgd
          obtain ⟨hlt, hz⟩ := List.getElem?_eq_some.mp hg
          have hmem : (-1 : Int) ∈ rr := by
            rw [← hgd, ← hz]
            exact List.getElem_mem hlt
          have hcontra : (ind.any fun rr => rr.contains (-1)) = true :=
            List.any_eq_true.mpr ⟨rr, hrr, by simpa using hmem⟩
          rw [hne] at hcontra
          cases hcontra
      have hout : to_retriever_output ind d =
          (ind.zip d).map (fun p => ⟨p.1, p.2, none⟩) := by
        simp only [to_retriever_output, hne, Bool.false_eq_true, if_false]
      rw [hout, List.getElem?_map]
      have hzip : (ind.zip d)[j]? = some (row, drow) := by
        rw [List.getElem?_zip_eq_some]
        exact ⟨h1, h2⟩
      rw [hzip, filterRow_eq_self _ row hK, filterRow_eq_self _ drow hK]
      rfl
  · intro r idx xq hidx hlen hdim
    unfold retrieve_embedding_queries
    dsimp only
    rw [npToMatrix_ok_of_uniform xq idx.d hdim]
    dsimp only
    rw [hidx]
    dsimp only
    rw [faissSearch_ok_of_uniform idx xq _ hdim]
    dsimp only
    refine ⟨_, rfl, ?_⟩
    have hk5 : effTopK (some 5) r.top_k = 5 := rfl
    simp only [hk5]
    have hdec : ∀ q ∈ xq, ∃ x y : Int, x ≠ -1 ∧ y ≠ -1 ∧
        (searchRow idx.vectors q 5).2 = [x, y, -1, -1, -1] := by
      intro q hq
      obtain ⟨A, hAlen, hAb, hArow⟩ := searchRow_indices_decomp idx.vectors q 5
      rw [hlen] at hAlen hArow
      have hAlen2 : A.length = 2 := by simpa using hAlen
      obtain ⟨j0, j1, rfl⟩ : ∃ j0 j1, A = [j0, j1] := by
        rcases A with _ | ⟨j0, A1⟩
        · simp at hAlen2
        rcases A1 with _ | ⟨j1, A2⟩
        · simp at hAlen2
        rcases A2 with _ | ⟨j2, A3⟩
        · exact ⟨j0, j1, rfl⟩
        · simp at hAlen2
      refine ⟨(j0 : Int), (j1 : Int), by omega, by omega, ?_⟩
      rw [hArow]
      rfl
    cases xq with
    | nil =>
      intro o ho
      simp [to_retriever_output, convertMatrix] at ho
    | cons q0 qs =>
      obtain ⟨x0, y0, hx0, hy0, hrow0⟩ := hdec q0 (by simp)
      have hK0 : (((q0 :: qs).map
          (fun q => (searchRow idx.vectors q 5).2)).all
            fun rr => decide (rr.getD 0 0 ≠ -1)) = true := by
        rw [List.all_eq_true]
        intro rr hrr
        obtain ⟨q, hq, rfl⟩ := List.mem_map.mp hrr
        obtain ⟨x, y, hx, hy, hr⟩ := hdec q hq
        rw [hr]
        simpa using hx
      have hK1 : (((q0 :: qs).map
          (fun q => (searchRow idx.vectors q 5).2)).all
            fun rr => decide (rr.getD 1 0 ≠ -1)) = true := by
        rw [List.all_eq_true]
        intro rr hrr
        obtain ⟨q, hq, rfl⟩ := List.mem_map.mp hrr
        obtain ⟨x, y, hx, hy, hr⟩ := hdec q hq
        rw [hr]
        simpa using hy
      have hKsent : ∀ c : Nat, ((searchRow idx.vectors q0 5).2.getD c 0) = -1 →
          (((q0 :: qs).map
            (fun q => (searchRow idx.vectors q 5).2)).all
              fun rr => decide (rr.getD c 0 ≠ -1)) = false := by
        intro c hc
        rcases Bool.eq_false_or_eq_true (((q0 :: qs).map
            (fun q => (searchRow idx.vectors q 5).2)).all
              fun rr => decide (rr.getD c 0 ≠ -1)) with ht | hf
        · have := List.all_eq_true.mp ht ((searchRow idx.vectors q0 5).2)
            (List.mem_map_of_mem _ (by simp))
          rw [decide_eq_true_eq] at this
          exact absurd hc this
        · exact hf
      have hany : (((q0 :: qs).map
          (fun q => (searchRow idx.vectors q 5).2)).any
            fun rr => rr.contains (-1)) = true := by
        apply List.any_eq_true.mpr
        refine ⟨(searchRow idx.vectors q0 5).2,
          List.mem_map_of_mem _ (by simp), ?_⟩
        rw [hrow0]
        simp
      intro o ho
      simp only [to_retriever_output, hany, if_true] at ho
      obtain ⟨pr, hpr, rfl⟩ := List.mem_map.mp ho
      obtain ⟨h1, h2⟩ := List.of_mem_zip hpr
      obtain ⟨rr, hrr, hpr1⟩ := List.mem_map.mp h1
      obtain ⟨q, hq, rfl⟩ := List.mem_map.mp hrr
      obtain ⟨x, y, hx, hy, hr⟩ := hdec q hq
      have hK2 := hKsent 2 (by rw [hrow0]; rfl)
      have hK3 := hKsent 3 (by rw [hrow0]; rfl)
      have hK4 := hKsent 4 (by rw [hrow0]; rfl)
      have hfr : pr.1 = [x, y] := by
        rw [← hpr1, hr]
        exact filterRow_five _ x y _ _ _ hK0 hK1 hK2 hK3 hK4
      constructor
      · show pr.1.length = 2
        rw [hfr]
        rfl
      · show ¬ (-1 : Int) ∈ pr.1
        rw [hfr]
        intro hmem
        rcases List.mem_cons.mp hmem with hh | hh
        · exact hx hh.symm
        · rcases List.mem_cons.mp hh with hh2 | hh2
          · exact hy hh2.symm
          · cases hh2

/-- Witness for C4 at concrete inputs. -/
theorem sentinel_columns_dropped_uniformly_witness :
    ((to_retriever_output [[0, -1]] [[(1 : ℚ), 2]])[0]? = some
        ⟨filterRow
            (fun c => [[0, -1]].all fun rr => decide (rr.getD c 0 ≠ -1))
            [0, -1],
          filterRow
            (fun c => [[0, -1]].all fun rr => decide (rr.getD c 0 ≠ -1))
            [(1 : ℚ), 2],
          none⟩) ∧
    (∃ out, retrieve_embedding_queries r2idx
        (.floatMatrix [[(1 : ℚ), 0]]) (some 5) = .ok out ∧
      ∀ o ∈ out, o.doc_indices.length = 2 ∧ (-1 : Int) ∉ o.doc_indices) :=
  ⟨sentinel_columns_dropped_uniformly.1 [[0, -1]] [[(1 : ℚ), 2]] 0
      [0, -1] [(1 : ℚ), 2] rfl rfl,
   sentinel_columns_dropped_uniformly.2 r2idx ⟨2, [[1, 0], [0, 1]]⟩
      [[(1 : ℚ), 0]] rfl rfl (by decide)⟩

/-- Number of non-empty queries (the survivors that get embedded). -/
def countValid : List String → Nat
  | [] => 0
  | q :: rest => (if q = "" then 0 else 1) + countValid rest

/-- Number of non-empty queries strictly before position `j`: the rank of
an original position among the survivors. -/
def nonEmptyBefore : List String → Nat → Nat
  | _, 0 => 0
  | [], _ + 1 => 0
  | q :: rest, j + 1 => (if q = "" then 0 else 1) + nonEmptyBefore rest j

/-- Reference reassembly: walk the original queries and the default outputs
together, consuming one assembled Result per non-empty query and copying
its indices and scores into that query's slot. -/
def mergeResults : List String → List RetrieverOutput →
    List RetrieverOutput → List RetrieverOutput
  | [], suf, _ => suf
  | _ :: _, [], _ => []
  | q :: qs, o :: os, assembled =>
    if q = "" then o :: mergeResults qs os assembled
    else
      match assembled with
      | [] => o :: mergeResults qs os []
      | a :: as =>
        { o with doc_indices := a.doc_indices
               , doc_scores := a.doc_scores } :: mergeResults qs os as

lemma buildValidAux_fst_length (qs : List String) :
    ∀ i v, (buildValidAux i v qs).1.length = countValid qs := by
  induction qs with
  | nil => intro i v; rfl
  | cons q rest ih =>
    intro i v
    by_cases hq : q = ""
    · simp [buildValidAux, countValid, hq, ih]
    · simp [buildValidAux, countValid, hq, ih]
      omega

lemma to_retriever_output_length (ind : List (List Int))
    (d : List (List ℚ)) :
    (to_retriever_output ind d).length = min ind.length d.length := by
  by_cases h : (ind.any fun row => row.contains (-1)) = true
  · simp only [to_retriever_output, h, if_true]
    simp [List.length_zip]
  · have h' : (ind.any fun row => row.contains (-1)) = false := by
      revert h
      cases (ind.any fun row => row.contains (-1)) <;> simp
    simp only [to_retriever_output, h', Bool.false_eq_true, if_false]
    simp [List.length_zip]

lemma modifyAt_append (pre : List α) (o : α) (suf : List α) (f : α → α) :
    modifyAt (pre ++ o :: suf) pre.length f = pre ++ f o :: suf := by
  induction pre with
  | nil => rfl
  | cons p ps ih => simp [modifyAt, ih]

lemma modifyAt_append_of_length (pre : List α) (o : α) (suf : List α)
    (f : α → α) (i : Nat) (h : pre.length = i) :
    modifyAt (pre ++ o :: suf) i f = pre ++ f o :: suf := by
  subst h
  exact modifyAt_append pre o suf f

lemma fillLoop_skip_lt (v0 i0 : Nat) (rm : List (Nat × Nat)) :
    ∀ (pers : List RetrieverOutput) (out : List RetrieverOutput) (k : Nat),
      v0 < k →
      fillLoop ((v0, i0) :: rm) out k pers = fillLoop rm out k pers := by
  intro pers
  induction pers with
  | nil => intro out k hk; rfl
  | cons per rest ih =>
    intro out k hk
    have hlk : rmLookup k ((v0, i0) :: rm) = rmLookup k rm := by
      rw [show rmLookup k ((v0, i0) :: rm) =
          if v0 = k then some i0 else rmLookup k rm from rfl]
      rw [if_neg (by omega)]
    cases h : rmLookup k rm with
    | none =>
      unfold fillLoop
      rw [hlk, h]
    | some idx =>
      unfold fillLoop
      rw [hlk, h]
      exact ih _ (k + 1) (by omega)

lemma mergeResults_length (qs : List String) :
    ∀ (suf : List RetrieverOutput) (assembled : List RetrieverOutput),
      suf.length = qs.length →
      (mergeResults qs suf assembled).length = qs.length := by
  induction qs with
  | nil =>
    intro suf assembled h
    simpa [mergeResults] using h
  | cons q rest ih =>
    intro suf assembled h
    cases suf with
    | nil => simp at h
    | cons o os =>
      by_cases hq : q = ""
      · simp [mergeResults, hq, ih os assembled (by simpa using h)]
      · cases assembled with
        | nil => simp [mergeResults, hq, ih os [] (by simpa using h)]
        | cons a as => simp [mergeResults, hq, ih os as (by simpa using h)]

lemma mergeResults_getElem_empty (qs : List String) :
    ∀ (suf assembled : List RetrieverOutput) (j : Nat),
      qs[j]? = some "" →
      (mergeResults qs suf assembled)[j]? = suf[j]? := by
  induction qs with
  | nil =>
    intro suf assembled j h
    simp at h
  | cons q rest ih =>
    intro suf assembled j h
    cases suf with
    | nil => simp [mergeResults]
    | cons o os =>
      cases j with
      | zero =>
        have hq : q = "" := by simpa using h
        simp [mergeResults, hq]
      | succ j' =>
        have hrest : rest[j']? = some "" := by simpa using h
        by_cases hq : q = ""
        · simpa [mergeResults, hq] using ih os assembled j' hrest
        · cases assembled with
          | nil => simpa [mergeResults, hq] using ih os [] j' hrest
          | cons a as => simpa [mergeResults, hq] using ih os as j' hrest

lemma mergeResults_getElem_valid (qs : List String) :
    ∀ (suf assembled : List RetrieverOutput) (j : Nat) (q : String)
      (o : RetrieverOutput),
      qs[j]? = some q → q ≠ "" → suf[j]? = some o →
      suf.length = qs.length → assembled.length = countValid qs →
      ∃ a, assembled[nonEmptyBefore qs j]? = some a ∧
        (mergeResults qs suf assembled)[j]? =
          some ⟨a.doc_indices, a.doc_scores, o.query⟩ := by
  induction qs with
  | nil =>
    intro suf assembled j q o hj hq ho hsl hal
    simp at hj
  | cons q0 rest ih =>
    intro suf assembled j q o hj hq ho hsl hal
    cases suf with
    | nil => simp at hsl
    | cons o0 os =>
      cases j with
      | zero =>
        have hq0 : q0 = q := by simpa using hj
        have ho0 : o0 = o := by simpa using ho
        subst hq0
        subst ho0
        have hcv : countValid (q0 :: rest) = 1 + countValid rest := by
          simp [countValid, hq]
        rw [hcv] at hal
        cases assembled with
        | nil => simp at hal; omega
        | cons a as =>
          refine ⟨a, by simp [nonEmptyBefore], ?_⟩
          simp [mergeResults, hq]
      | succ j' =>
        have hrest : rest[j']? = some q := by simpa using hj
        have hos : os[j']? = some o := by simpa using ho
        have hsl' : os.length = rest.length := by simpa using hsl
        by_cases hq0 : q0 = ""
        · have hcv : countValid (q0 :: rest) = countValid rest := by
            simp [countValid, hq0]
          rw [hcv] at hal
          obtain ⟨a, ha1, ha2⟩ := ih os assembled j' q o hrest hq hos hsl' hal
          refine ⟨a, ?_, ?_⟩
          · simpa [nonEmptyBefore, hq0] using ha1
          · simpa [mergeResults, hq0] using ha2
        · have hcv : countValid (q0 :: rest) = 1 + countValid rest := by
            simp [countValid, hq0]
          rw [hcv] at hal
          cases assembled with
          | nil => simp at hal; omega
          | cons a0 as =>
            have hal' : as.length = countValid rest := by
              simp at hal
              omega
            obtain ⟨a, ha1, ha2⟩ := ih os as j' q o hrest hq hos hsl' hal'
            refine ⟨a, ?_, ?_⟩
            · have hnb : nonEmptyBefore (q0 :: rest) (j' + 1) =
                  nonEmptyBefore rest j' + 1 := by
                rw [show nonEmptyBefore (q0 :: rest) (j' + 1) =
                    (if q0 = "" then 0 else 1) + nonEmptyBefore rest j' from
                  rfl]
                rw [if_neg hq0]
                omega
              rw [hnb, List.getElem?_cons_succ]
              exact ha1
            · simpa [mergeResults, hq0] using ha2

/-- The fill loop of `retrieve_string_queries`, driven by the `record_map`
built over the original queries, produces exactly the reference
reassembly. -/
lemma fillLoop_buildValid (qs : List String) :
    ∀ (i0 v0 : Nat) (assembled : List RetrieverOutput)
      (pre suf : List RetrieverOutput),
      assembled.length = (buildValidAux i0 v0 qs).1.length →
      suf.length = qs.length →
      pre.length = i0 →
      fillLoop (buildValidAux i0 v0 qs).2 (pre ++ suf) v0 assembled =
        .ok (pre ++ mergeResults qs suf assembled) := by
  induction qs with
  | nil =>
    intro i0 v0 assembled pre suf hal hsl hpl
    have ha : assembled = [] :=
      List.length_eq_zero.mp (by simpa [buildValidAux] using hal)
    subst ha
    rfl
  | cons q rest ih =>
    intro i0 v0 assembled pre suf hal hsl hpl
    cases suf with
    | nil => simp at hsl
    | cons o suf' =>
      by_cases hq : q = ""
      · have hbva : buildValidAux i0 v0 (q :: rest) =
            buildValidAux (i0 + 1) v0 rest := by
          simp [buildValidAux, hq]
        rw [hbva] at hal ⊢
        have hmerge : mergeResults (q :: rest) (o :: suf') assembled =
            o :: mergeResults rest suf' assembled := by
          simp [mergeResults, hq]
        rw [hmerge]
        have h1 : pre ++ o :: suf' = (pre ++ [o]) ++ suf' := by
          simp
        have h2 : pre ++ o :: mergeResults rest suf' assembled =
            (pre ++ [o]) ++ mergeResults rest suf' assembled := by
          simp
        rw [h1, h2]
        exact ih (i0 + 1) v0 assembled (pre ++ [o]) suf' hal
          (by simpa using hsl) (by simp [hpl])
      · have hbva : buildValidAux i0 v0 (q :: rest) =
            (q :: (buildValidAux (i0 + 1) (v0 + 1) rest).1,
             (v0, i0) :: (buildValidAux (i0 + 1) (v0 + 1) rest).2) := by
          simp [buildValidAux, hq]
        rw [hbva] at hal ⊢
        cases assembled with
        | nil => simp at hal
        | cons a as =>
          have hal' : as.length =
              (buildValidAux (i0 + 1) (v0 + 1) rest).1.length := by
            simpa using hal
          have hmerge : mergeResults (q :: rest) (o :: suf') (a :: as) =
              { o with doc_indices := a.doc_indices
                     , doc_scores := a.doc_scores } ::
                mergeResults rest suf' as := by
            simp [mergeResults, hq]
          rw [hmerge]
          rw [show fillLoop ((v0, i0) :: (buildValidAux (i0 + 1) (v0 + 1)
              rest).2) (pre ++ o :: suf') v0 (a :: as) =
            (match rmLookup v0 ((v0, i0) :: (buildValidAux (i0 + 1) (v0 + 1)
                rest).2) with
              | none => Except.error Err.keyError
              | some idx =>
                fillLoop ((v0, i0) :: (buildValidAux (i0 + 1) (v0 + 1)
                    rest).2)
                  (modifyAt (pre ++ o :: suf') idx (fun oo =>
                    { oo with doc_indices := a.doc_indices
                            , doc_scores := a.doc_scores }))
                  (v0 + 1) as) from rfl]
          rw [show rmLookup v0 ((v0, i0) :: (buildValidAux (i0 + 1) (v0 + 1)
              rest).2) = some i0 from by
            rw [show rmLookup v0 ((v0, i0) :: (buildValidAux (i0 + 1)
                (v0 + 1) rest).2) =
              if v0 = v0 then some i0
              else rmLookup v0 (buildValidAux (i0 + 1) (v0 + 1) rest).2 from
              rfl]
            rw [if_pos rfl]]
          dsimp only
          rw [modifyAt_append_of_length pre o suf' _ i0 hpl]
          rw [fillLoop_skip_lt v0 i0 _ as _ (v0 + 1) (by omega)]
          have h2 : pre ++ ({ o with doc_indices := a.doc_indices
                                   , doc_scores := a.doc_scores } ::
              mergeResults rest suf' as) =
            (pre ++ [{ o with doc_indices := a.doc_indices
                            , doc_scores := a.doc_scores }]) ++
              mergeResults rest suf' as := by
            simp
          have h3 : pre ++ ({ o with doc_indices := a.doc_indices
                                   , doc_scores := a.doc_scores } :: suf') =
            (pre ++ [{ o with doc_indices := a.doc_indices
                            , doc_scores := a.doc_scores }]) ++ suf' := by
            simp
          rw [h2, h3]
          exact ih (i0 + 1) (v0 + 1) as
            (pre ++ [{ o with doc_indices := a.doc_indices
                            , doc_scores := a.doc_scores }]) suf' hal'
            (by simpa using hsl) (by simp [hpl])

/-- C1: on a ready non-empty index, a text batch returns exactly one Result
per input query in input order: empty-string queries keep an empty-default
Result that retains the query text, and every non-empty query's Result
carries the search results of its embedded survivor, routed back to the
original position through the survivor-to-original-position `record_map`. -/
theorem text_retrieve_preserves_positions (r : FAISSRetriever)
    (idx : IndexFlatIP) (queries : List String) (top_k : Option Nat)
    (embeds : List (List ℚ))
    (hidx : r.index = some idx)
    (hne : idx.vectors ≠ [])
    (hemb : r.embedder (buildValid queries).1 = .ok embeds)
    (hlen : embeds.length = (buildValid queries).1.length)
    (hdim : ∀ v ∈ embeds, v.length = idx.d) :
    ∃ out : List RetrieverOutput,
      retrieve_string_queries r (.strList queries) top_k = .ok out ∧
      out.length = queries.length ∧
      (∀ j : Nat, queries[j]? = some "" →
        out[j]? = some (⟨[], [], some ""⟩ : RetrieverOutput)) ∧
      (∀ (j : Nat) (q : String), queries[j]? = some q → q ≠ "" →
        ∃ a, (to_retriever_output
              (embeds.map (fun qe =>
                (searchRow idx.vectors qe (effTopK top_k r.top_k)).2))
              (convertMatrix (embeds.map (fun qe =>
                (searchRow idx.vectors qe
                  (effTopK top_k r.top_k)).1))))[nonEmptyBefore queries j]? =
            some a ∧
          out[j]? = some
            (⟨a.doc_indices, a.doc_scores, some q⟩ : RetrieverOutput)) := by
  unfold retrieve_string_queries
  rw [hidx]
  dsimp only
  rw [if_neg (fun h => hne (List.length_eq_zero.mp h))]
  rw [hemb]
  dsimp only
  rw [npToMatrix_ok_of_uniform embeds idx.d hdim]
  dsimp only
  rw [faissSearch_ok_of_uniform idx embeds _ hdim]
  dsimp only
  simp only [buildValid]
  have hal : (to_retriever_output
      (embeds.map (fun qe =>
        (searchRow idx.vectors qe (effTopK top_k r.top_k)).2))
      (convertMatrix (embeds.map (fun qe =>
        (searchRow idx.vectors qe (effTopK top_k r.top_k)).1)))).length =
      (buildValidAux 0 0 queries).1.length := by
    rw [to_retriever_output_length]
    simp only [convertMatrix, List.length_map, Nat.min_self]
    exact hlen
  have hfill := fillLoop_buildValid queries 0 0
    (to_retriever_output
      (embeds.map (fun qe =>
        (searchRow idx.vectors qe (effTopK top_k r.top_k)).2))
      (convertMatrix (embeds.map (fun qe =>
        (searchRow idx.vectors qe (effTopK top_k r.top_k)).1))))
    []
    (queries.map (fun q =>
      ({ doc_indices := [], doc_scores := [], query := some q } :
        RetrieverOutput)))
    hal (by simp) rfl
  simp only [List.nil_append] at hfill
  refine ⟨_, hfill, ?_, ?_, ?_⟩
  · exact mergeResults_length queries _ _ (by simp)
  · intro j hj
    rw [mergeResults_getElem_empty queries _ _ j hj, List.getElem?_map, hj]
    rfl
  · intro j q hj hq
    have hbase : (queries.map (fun q =>
        ({ doc_indices := [], doc_scores := [], query := some q } :
          RetrieverOutput)))[j]? =
        some { doc_indices := [], doc_scores := [], query := some q } := by
      rw [List.getElem?_map, hj]
      rfl
    have hcv : (to_retriever_output
        (embeds.map (fun qe =>
          (searchRow idx.vectors qe (effTopK top_k r.top_k)).2))
        (convertMatrix (embeds.map (fun qe =>
          (searchRow idx.vectors qe (effTopK top_k r.top_k)).1)))).length =
        countValid queries := by
      rw [hal, buildValidAux_fst_length]
    obtain ⟨a, ha1, ha2⟩ := mergeResults_getElem_valid queries _ _ j q
      { doc_indices := [], doc_scores := [], query := some q }
      hj hq hbase (by simp) hcv
    exact ⟨a, ha1, ha2⟩

/-- A retriever with a one-vector index and a stub embedder, for the C1
witness. -/
def rWitness : FAISSRetriever :=
  ⟨fun qs => .ok (qs.map (fun _ => [1])), 5, some 1, some ⟨1, [[1]]⟩,
    true, 1⟩

/-- Witness for C1 on the text batch `["", "hi"]`. -/
theorem text_retrieve_preserves_positions_witness :
    ∃ out : List RetrieverOutput,
      retrieve_string_queries rWitness (.strList ["", "hi"]) none =
        .ok out ∧
      out.length = (["", "hi"] : List String).length ∧
      (∀ j : Nat, (["", "hi"] : List String)[j]? = some "" →
        out[j]? = some (⟨[], [], some ""⟩ : RetrieverOutput)) ∧
      (∀ (j : Nat) (q : String), (["", "hi"] : List String)[j]? = some q →
        q ≠ "" →
        ∃ a, (to_retriever_output
              (([[(1 : ℚ)]]).map (fun qe =>
                (searchRow [[(1 : ℚ)]] qe
                  (effTopK none rWitness.top_k)).2))
              (convertMatrix (([[(1 : ℚ)]]).map (fun qe =>
                (searchRow [[(1 : ℚ)]] qe
                  (effTopK none rWitness.top_k)).1))))[nonEmptyBefore
                    ["", "hi"] j]? = some a ∧
          out[j]? = some
            (⟨a.doc_indices, a.doc_scores, some q⟩ : RetrieverOutput)) :=
  text_retrieve_preserves_positions rWitness ⟨1, [[(1 : ℚ)]]⟩ ["", "hi"]
    none [[(1 : ℚ)]] rfl (by simp) rfl rfl (by decide)
